import Mathlib

/-!
Verification of the analytics collector's core (store, ingest operations,
aggregator, persistence) as a shallow embedding of `src/index.js`.

Modelling conventions:
* Timestamps are integers (epoch milliseconds); `new Date().toISOString()`
  stored on a record is modelled by an `Int` parameter `now` supplied to each
  operation, and `new Date(s) >= t` becomes integer `≤`.
* JavaScript objects that are used as string-keyed maps (the `uniqueUsers`,
  `pageStats`, `eventStats` accumulators, and the `metadata` / `properties`
  payloads) are modelled as association lists, which preserves the
  insertion-order iteration the code relies on.
* `generateId()` (`Date.now().toString(36) + Math.random()...`) is a random
  draw; each operation takes the drawn string(s) as explicit parameters.
* JavaScript `x || d` on a string field treats both `undefined` and the empty
  string as falsy; absent fields are `Option.none`.
-/

/-- JSON values, the payload type for `metadata` / `properties` and the
persisted snapshot. Objects are ordered field lists, as in the source. -/
inductive Json where
  | null : Json
  | bool (b : Bool) : Json
  | num (n : Int) : Json
  | str (s : String) : Json
  | arr (xs : List Json) : Json
  | obj (fields : List (String × Json)) : Json
deriving Repr

/-- A stored page view record (`trackPageView` output shape). -/
structure PageView where
  id : String
  timestamp : Int
  page : String
  userId : String
  sessionId : String
  referrer : String
  userAgent : String
deriving Repr, DecidableEq

/-- A stored event record (`trackEvent` output shape). -/
structure Event where
  id : String
  timestamp : Int
  eventName : String
  category : String
  userId : String
  sessionId : String
  properties : List (String × Json)
deriving Repr

/-- A stored user record (`registerUser` output shape). -/
structure User where
  userId : String
  email : String
  name : String
  registeredAt : Int
  lastSeen : Int
  metadata : List (String × Json)
deriving Repr

/-- The in-memory store `analyticsData`: four ordered sequences. -/
structure Store where
  pageViews : List PageView
  events : List Event
  users : List User
  sessions : List Json
deriving Repr

/-- The initial value of `analyticsData`: four empty sequences. -/
def emptyStore : Store := ⟨[], [], [], []⟩

/-- JavaScript `s || d` for a possibly-absent string field: `undefined` and
`""` are falsy. -/
def strOr (o : Option String) (d : String) : String :=
  match o with
  | none => d
  | some s => if s = "" then d else s

/-- JavaScript `m || {}` for a possibly-absent object field: only absence is
falsy (an empty object is truthy). -/
def objOr (o : Option (List (String × Json))) : List (String × Json) :=
  match o with
  | none => []
  | some m => m

/-- Input to `trackPageView` (loosely-typed JSON body). -/
structure PVInput where
  page : Option String := none
  userId : Option String := none
  sessionId : Option String := none
  referrer : Option String := none
  userAgent : Option String := none
deriving Repr

/-- Input to `trackEvent`. -/
structure EvInput where
  eventName : Option String := none
  category : Option String := none
  userId : Option String := none
  sessionId : Option String := none
  properties : Option (List (String × Json)) := none
deriving Repr

/-- Input to `registerUser`. -/
structure UserInput where
  userId : Option String := none
  email : Option String := none
  name : Option String := none
  metadata : Option (List (String × Json)) := none
deriving Repr

/-- `trackPageView(data)`: build the record with defaults, append, return it.
`freshId` and `freshSid` are the values `generateId()` would draw (the
session id draw is only used when `data.sessionId` is falsy). -/
def trackPageView (now : Int) (freshId freshSid : String) (data : PVInput)
    (st : Store) : PageView × Store :=
  let pv : PageView :=
    { id := freshId
      timestamp := now
      page := strOr data.page "/"
      userId := strOr data.userId "anonymous"
      sessionId := strOr data.sessionId freshSid
      referrer := strOr data.referrer ""
      userAgent := strOr data.userAgent "" }
  (pv, { st with pageViews := st.pageViews ++ [pv] })

/-- `trackEvent(data)`: analogous, for events. -/
def trackEvent (now : Int) (freshId freshSid : String) (data : EvInput)
    (st : Store) : Event × Store :=
  let ev : Event :=
    { id := freshId
      timestamp := now
      eventName := strOr data.eventName "custom_event"
      category := strOr data.category "general"
      userId := strOr data.userId "anonymous"
      sessionId := strOr data.sessionId freshSid
      properties := objOr data.properties }
  (ev, { st with events := st.events ++ [ev] })

/-- The linear scan in `registerUser`: `users[i].userId === data.userId`
(strict equality; `undefined` never equals a stored string). -/
def userIdMatches (dataUserId : Option String) (stored : String) : Bool :=
  match dataUserId with
  | none => false
  | some s => stored == s

/-- Fallback user record for total indexing (never observed: the index always
comes from a successful `findIdx?`). -/
def defaultUser : User := ⟨"", "", "", 0, 0, []⟩

/-- `registerUser(data)`: linear-scan upsert keyed by `userId`.  On a match,
the entry is replaced in place, carrying forward `registeredAt`; otherwise a
new record (with `freshId` when `data.userId` is falsy) is appended. -/
def registerUser (now : Int) (freshId : String) (data : UserInput)
    (st : Store) : User × Store :=
  let existingIndex? := st.users.findIdx? (fun u => userIdMatches data.userId u.userId)
  let user : User :=
    { userId := strOr data.userId freshId
      email := strOr data.email ""
      name := strOr data.name ""
      registeredAt :=
        match existingIndex? with
        | none => now
        | some i => (st.users.getD i defaultUser).registeredAt
      lastSeen := now
      metadata := objOr data.metadata }
  match existingIndex? with
  | some i => (user, { st with users := st.users.set i user })
  | none => (user, { st with users := st.users ++ [user] })

/-! ## Aggregator: `getStatistics` -/

/-- The effective window in hours: `timeRange || 24` on a number treats `0`
(and `NaN`, handled at the HTTP boundary) as falsy. -/
def effWindow (timeRange : Int) : Int :=
  if timeRange = 0 then 24 else timeRange

/-- `startTime = now - (timeRange || 24) * 60 * 60 * 1000`. -/
def statsStartTime (now timeRange : Int) : Int :=
  now - effWindow timeRange * 3600000

/-- `uniqueUsers[pv.userId] = true`: record a key in insertion order,
keeping the first occurrence. -/
def addKey (ks : List String) (k : String) : List String :=
  if k ∈ ks then ks else ks ++ [k]

/-- `m[k] = (m[k] || 0) + 1` on an insertion-ordered string-keyed object:
increment in place, or append a fresh key with count 1. -/
def bumpKey : List (String × Nat) → String → List (String × Nat)
  | [], k => [(k, 1)]
  | (k', v) :: rest, k =>
    if k' == k then (k', v + 1) :: rest else (k', v) :: bumpKey rest k

/-- The statistics object returned by `getStatistics`. -/
structure Stats where
  timeRange : Int
  totalPageViews : Nat
  totalEvents : Nat
  uniqueUsers : Nat
  topPages : List (String × Nat)
  topEvents : List (String × Nat)
  totalUsers : Nat
deriving Repr, DecidableEq

/-- `analyticsData.pageViews.filter(pv => new Date(pv.timestamp) >= startTime)`. -/
def filteredPageViews (now timeRange : Int) (st : Store) : List PageView :=
  st.pageViews.filter (fun pv => statsStartTime now timeRange ≤ pv.timestamp)

/-- `analyticsData.events.filter(ev => new Date(ev.timestamp) >= startTime)`. -/
def filteredEvents (now timeRange : Int) (st : Store) : List Event :=
  st.events.filter (fun ev => statsStartTime now timeRange ≤ ev.timestamp)

/-- `getStatistics(timeRange)`: filter both record sequences to
`timestamp >= startTime`, tally distinct page-view userIds, per-page and
per-event counts, and the unfiltered user total. -/
def getStatistics (now : Int) (timeRange : Int) (st : Store) : Stats :=
  let filteredPageViews := filteredPageViews now timeRange st
  let filteredEvents := filteredEvents now timeRange st
  let uniqueUsers := filteredPageViews.foldl (fun ks pv => addKey ks pv.userId) []
  let pageStats := filteredPageViews.foldl (fun m pv => bumpKey m pv.page) []
  let eventStats := filteredEvents.foldl (fun m ev => bumpKey m ev.eventName) []
  { timeRange := timeRange
    totalPageViews := filteredPageViews.length
    totalEvents := filteredEvents.length
    uniqueUsers := uniqueUsers.length
    topPages := pageStats
    topEvents := eventStats
    totalUsers := st.users.length }

/-- The `hours` query parameter as the handlers compute it:
`parseInt(query.hours) || 24`, where an absent or non-numeric value parses
to `NaN` (modelled as `none`) and `0` is likewise falsy. -/
def parseHours (q : Option Int) : Int :=
  match q with
  | none => 24
  | some n => if n = 0 then 24 else n

/-! ## Aggregator: `getUserJourney` -/

/-- Insert an element into a list sorted by `ts`, before the first element
whose key is not smaller.  This is the stable-sort insertion step: an element
inserted later (originally earlier in the input) precedes equal keys. -/
def insertByTs {α : Type} (ts : α → Int) (a : α) : List α → List α
  | [] => [a]
  | x :: xs => if ts x < ts a then x :: insertByTs ts a xs else a :: x :: xs

/-- Stable ascending sort by `ts`.  `Array.prototype.sort` with the numeric
timestamp comparator is specified (ES2019) to be a stable sort consistent
with the comparator, and a stable sort by a total preorder is unique, so this
insertion sort computes exactly the source's result. -/
def sortByTs {α : Type} (ts : α → Int) : List α → List α
  | [] => []
  | x :: xs => insertByTs ts x (sortByTs ts xs)

/-- The journey object returned by `getUserJourney`. -/
structure Journey where
  userId : String
  pageViews : List PageView
  events : List Event
  totalActions : Nat
deriving Repr

/-- `getUserJourney(userId)`: per-user filter (strict equality, no window),
then a stable ascending sort of each sequence by timestamp. -/
def getUserJourney (userId : String) (st : Store) : Journey :=
  let userPageViews :=
    sortByTs (fun pv => pv.timestamp) (st.pageViews.filter (fun pv => pv.userId == userId))
  let userEvents :=
    sortByTs (fun ev => ev.timestamp) (st.events.filter (fun ev => ev.userId == userId))
  { userId := userId
    pageViews := userPageViews
    events := userEvents
    totalActions := userPageViews.length + userEvents.length }

/-- The `/api/users/{userId}/journey` GET branch of `handleRequest`: always
answers status 200 with the journey as the body. -/
def handleJourneyRequest (st : Store) (userId : String) : Nat × Journey :=
  (200, getUserJourney userId st)

/-! ## Persistence: `saveDataToFile` / `initializeDataStore`

`saveDataToFile` writes `JSON.stringify(analyticsData)`; `initializeDataStore`
reads the file back and assigns `JSON.parse(fileContent)` wholesale.  We model
the file at the JSON-tree level: saving encodes the store as a `Json` value,
and loading interprets such a value back into the four sequences exactly the
way the rest of the program reads the parsed object's fields. -/

def encodePageView (pv : PageView) : Json :=
  .obj [("id", .str pv.id), ("timestamp", .num pv.timestamp),
        ("page", .str pv.page), ("userId", .str pv.userId),
        ("sessionId", .str pv.sessionId), ("referrer", .str pv.referrer),
        ("userAgent", .str pv.userAgent)]

def encodeEvent (ev : Event) : Json :=
  .obj [("id", .str ev.id), ("timestamp", .num ev.timestamp),
        ("eventName", .str ev.eventName), ("category", .str ev.category),
        ("userId", .str ev.userId), ("sessionId", .str ev.sessionId),
        ("properties", .obj ev.properties)]

def encodeUser (u : User) : Json :=
  .obj [("userId", .str u.userId), ("email", .str u.email),
        ("name", .str u.name), ("registeredAt", .num u.registeredAt),
        ("lastSeen", .num u.lastSeen), ("metadata", .obj u.metadata)]

/-- `JSON.stringify(analyticsData)`: the snapshot written by
`saveDataToFile`. -/
def encodeStore (st : Store) : Json :=
  .obj [("pageViews", .arr (st.pageViews.map encodePageView)),
        ("events", .arr (st.events.map encodeEvent)),
        ("users", .arr (st.users.map encodeUser)),
        ("sessions", .arr st.sessions)]

/-- Field lookup on a parsed JSON object (first occurrence). -/
def jLookup (j : Json) (k : String) : Option Json :=
  match j with
  | .obj fields => (fields.find? (fun p => p.1 == k)).map (fun p => p.2)
  | _ => none

def asStr : Json → Option String
  | .str s => some s
  | _ => none

def asNum : Json → Option Int
  | .num n => some n
  | _ => none

def asObjFields : Json → Option (List (String × Json))
  | .obj fields => some fields
  | _ => none

def asArr : Json → Option (List Json)
  | .arr xs => some xs
  | _ => none

def decodePageView (j : Json) : Option PageView := do
  let id ← jLookup j "id" >>= asStr
  let timestamp ← jLookup j "timestamp" >>= asNum
  let page ← jLookup j "page" >>= asStr
  let userId ← jLookup j "userId" >>= asStr
  let sessionId ← jLookup j "sessionId" >>= asStr
  let referrer ← jLookup j "referrer" >>= asStr
  let userAgent ← jLookup j "userAgent" >>= asStr
  pure ⟨id, timestamp, page, userId, sessionId, referrer, userAgent⟩

def decodeEvent (j : Json) : Option Event := do
  let id ← jLookup j "id" >>= asStr
  let timestamp ← jLookup j "timestamp" >>= asNum
  let eventName ← jLookup j "eventName" >>= asStr
  let category ← jLookup j "category" >>= asStr
  let userId ← jLookup j "userId" >>= asStr
  let sessionId ← jLookup j "sessionId" >>= asStr
  let properties ← jLookup j "properties" >>= asObjFields
  pure ⟨id, timestamp, eventName, category, userId, sessionId, properties⟩

def decodeUser (j : Json) : Option User := do
  let userId ← jLookup j "userId" >>= asStr
  let email ← jLookup j "email" >>= asStr
  let name ← jLookup j "name" >>= asStr
  let registeredAt ← jLookup j "registeredAt" >>= asNum
  let lastSeen ← jLookup j "lastSeen" >>= asNum
  let metadata ← jLookup j "metadata" >>= asObjFields
  pure ⟨userId, email, name, registeredAt, lastSeen, metadata⟩

/-- Reading the parsed snapshot back as a `Store`: the four array fields,
each record interpreted the way the program's readers access it. -/
def decodeStore (j : Json) : Option Store := do
  let pvs ← jLookup j "pageViews" >>= asArr
  let evs ← jLookup j "events" >>= asArr
  let us ← jLookup j "users" >>= asArr
  let sessions ← jLookup j "sessions" >>= asArr
  let pageViews ← pvs.mapM decodePageView
  let events ← evs.mapM decodeEvent
  let users ← us.mapM decodeUser
  pure ⟨pageViews, events, users, sessions⟩

/-- The condition of the snapshot file when `initializeDataStore` runs. -/
inductive FileCond where
  | missing : FileCond
  | malformed : FileCond
  | parsed (j : Json) : FileCond

/-- The body of the `try` block: `JSON.parse(readFileSync(...))`, which
throws on a malformed file (and on a missing one, were it reached). -/
def readAndParse : FileCond → Except String Json
  | .missing => .error "ENOENT"
  | .malformed => .error "Unexpected token"
  | .parsed j => .ok j

/-- `initializeDataStore()`: the `existsSync` guard skips a missing file, and
`try/catch` swallows a parse failure; either way the initial in-memory value
(the four-empty-sequences default) is kept.  The result is always `ok`: the
function never throws to its caller. -/
def initializeDataStore (fc : FileCond) : Except String Json :=
  match fc with
  | .missing => .ok (encodeStore emptyStore)
  | fc =>
    match readAndParse fc with
    | .ok j => .ok j
    | .error _ => .ok (encodeStore emptyStore)

/-! ## Reachability by ingest operations (for the id-uniqueness invariant)

Each operation carries the concrete request data together with the strings
its `generateId()` calls would draw.  An execution is a list of such
operations applied in order. -/

/-- One ingest operation together with its timestamp and random draws. -/
inductive Op where
  | pv (now : Int) (freshId freshSid : String) (data : PVInput) : Op
  | ev (now : Int) (freshId freshSid : String) (data : EvInput) : Op
  | reg (now : Int) (freshId : String) (data : UserInput) : Op

/-- Apply one ingest operation to the store. -/
def applyOp (st : Store) : Op → Store
  | .pv now freshId freshSid data => (trackPageView now freshId freshSid data st).2
  | .ev now freshId freshSid data => (trackEvent now freshId freshSid data st).2
  | .reg now freshId data => (registerUser now freshId data st).2

/-- Run a list of ingest operations from a starting store. -/
def runOps (st : Store) : List Op → Store
  | [] => st
  | op :: ops => runOps (applyOp st op) ops

/-- The fresh `generateId()` draws an operation consumes (record id first,
then the session id where one may be drawn). -/
def opFreshIds : Op → List String
  | .pv _ freshId freshSid _ => [freshId, freshSid]
  | .ev _ freshId freshSid _ => [freshId, freshSid]
  | .reg _ freshId _ => [freshId]

/-- The caller-chosen userId an operation can store as `User.userId`. -/
def opGivenUserIds : Op → List String
  | .reg _ _ data =>
    match data.userId with
    | some s => if s = "" then [] else [s]
    | none => []
  | _ => []

/-- All id-like strings already present in a store that a fresh draw must
avoid. -/
def storeIds (st : Store) : List String :=
  st.pageViews.map (fun pv => pv.id) ++ st.events.map (fun ev => ev.id) ++
    st.users.map (fun u => u.userId)

/-- Freshness of the random draws across an execution: pairwise distinct, and
disjoint from the initial store's ids and from every caller-chosen userId.
This is the success event of the probabilistic id generator, which the spec
requires to hold "with overwhelming probability". -/
def FreshDraws (st : Store) (ops : List Op) : Prop :=
  (ops.flatMap opFreshIds).Nodup ∧
    ∀ s ∈ ops.flatMap opFreshIds, s ∉ storeIds st ∧ s ∉ ops.flatMap opGivenUserIds

instance (st : Store) (ops : List Op) : Decidable (FreshDraws st ops) := by
  unfold FreshDraws; infer_instance

/-- The id-uniqueness invariant on a store state. -/
def IdsUnique (st : Store) : Prop :=
  (st.pageViews.map (fun pv => pv.id)).Nodup ∧
    (st.events.map (fun ev => ev.id)).Nodup ∧
    (st.users.map (fun u => u.userId)).Nodup

instance (st : Store) : Decidable (IdsUnique st) := by
  unfold IdsUnique; infer_instance

/-! ## Concrete records used to exercise the theorems -/

/-- A first registration of `"u1"` (`registeredAt = lastSeen = 7`). -/
def demoUser : User := ⟨"u1", "ann@example.com", "Ann", 7, 7, [("old", Json.null)]⟩

/-- A store whose users sequence already holds `demoUser`. -/
def demoStoreUsers : Store := ⟨[], [], [demoUser], []⟩

/-- A second registration request for `"u1"` with different metadata. -/
def demoRegInput : UserInput := ⟨some "u1", none, none, some [("plan", Json.str "pro")]⟩

/-- A store holding one page view strictly older than `now = 0` yet within
the last 24 hours. -/
def c3Store : Store := ⟨[⟨"pv1", -1, "/", "anonymous", "s0", "", ""⟩], [], [], []⟩

/-- A sample execution: two trackings and a double registration. -/
def demoOps : List Op :=
  [.pv 1 "i1" "s1" {}, .ev 2 "i2" "s2" {},
    .reg 3 "i3" ⟨some "u1", none, none, none⟩,
    .reg 4 "i4" ⟨some "u1", none, none, none⟩]

/-! ## General list lemmas -/

theorem set_getElem_self {α : Type} (l : List α) (i : Nat) (h : i < l.length) :
    l.set i l[i] = l := by
  induction l generalizing i with
  | nil => simp
  | cons x xs ih =>
    cases i with
    | zero => simp
    | succ n => simpa using ih n (by simpa using h)

/-! ## Theorems for the claims -/

/-- C10: a `trackPageView` input whose `page` field is absent or empty is
stored, and returned, with `page` defaulted to `"/"`. -/
theorem trackPageView_page_default (now : Int) (freshId freshSid : String)
    (data : PVInput) (st : Store)
    (h : data.page = none ∨ data.page = some "") :
    (trackPageView now freshId freshSid data st).1.page = "/" ∧
      (trackPageView now freshId freshSid data st).2.pageViews =
        st.pageViews ++ [(trackPageView now freshId freshSid data st).1] := by
  rcases h with h | h <;> simp [trackPageView, strOr, h]

theorem trackPageView_page_default_witness :
    ((({} : PVInput).page = none ∨ ({} : PVInput).page = some "") ∧
      (trackPageView 0 "id0" "sid0" {} emptyStore).1.page = "/" ∧
      (trackPageView 0 "id0" "sid0" {} emptyStore).2.pageViews =
        emptyStore.pageViews ++ [(trackPageView 0 "id0" "sid0" {} emptyStore).1]) :=
  ⟨Or.inl rfl, trackPageView_page_default 0 "id0" "sid0" {} emptyStore (Or.inl rfl)⟩

/-- C8: for a userId matching no stored page view and no stored event, the
journey endpoint answers 200 with empty sequences and `totalActions = 0`. -/
theorem journey_unknown_user (st : Store) (u : String)
    (hpv : ∀ pv ∈ st.pageViews, pv.userId ≠ u)
    (hev : ∀ ev ∈ st.events, ev.userId ≠ u) :
    (handleJourneyRequest st u).1 = 200 ∧
      (handleJourneyRequest st u).2.pageViews = [] ∧
      (handleJourneyRequest st u).2.events = [] ∧
      (handleJourneyRequest st u).2.totalActions = 0 := by
  have hpv' : st.pageViews.filter (fun pv => pv.userId == u) = [] := by
    simp only [List.filter_eq_nil_iff, beq_iff_eq]
    exact hpv
  have hev' : st.events.filter (fun ev => ev.userId == u) = [] := by
    simp only [List.filter_eq_nil_iff, beq_iff_eq]
    exact hev
  refine ⟨rfl, ?_, ?_, ?_⟩ <;>
    simp [handleJourneyRequest, getUserJourney, hpv', hev', sortByTs]

theorem journey_unknown_user_witness :
    ((∀ pv ∈ (Store.mk [⟨"a", 5, "/home", "u1", "s1", "", ""⟩] [] [] []).pageViews,
        pv.userId ≠ "ghost") ∧
      (∀ ev ∈ (Store.mk [⟨"a", 5, "/home", "u1", "s1", "", ""⟩] [] [] []).events,
        ev.userId ≠ "ghost") ∧
      (handleJourneyRequest (Store.mk [⟨"a", 5, "/home", "u1", "s1", "", ""⟩] [] [] []) "ghost").1 = 200 ∧
      (handleJourneyRequest (Store.mk [⟨"a", 5, "/home", "u1", "s1", "", ""⟩] [] [] []) "ghost").2.pageViews = [] ∧
      (handleJourneyRequest (Store.mk [⟨"a", 5, "/home", "u1", "s1", "", ""⟩] [] [] []) "ghost").2.events = [] ∧
      (handleJourneyRequest (Store.mk [⟨"a", 5, "/home", "u1", "s1", "", ""⟩] [] [] []) "ghost").2.totalActions = 0) := by
  refine ⟨by decide, by decide, ?_⟩
  exact journey_unknown_user (Store.mk [⟨"a", 5, "/home", "u1", "s1", "", ""⟩] [] [] [])
    "ghost" (by decide) (by decide)

/-- C7: `initializeDataStore` never throws: it always yields an `ok` state,
namely the parsed snapshot on a successful read and parse, and the
four-empty-sequences default on a missing or malformed file. -/
theorem initializeDataStore_total (fc : FileCond) :
    (∃ j, initializeDataStore fc = .ok j) ∧
      (∀ j, fc = .parsed j → initializeDataStore fc = .ok j) ∧
      (fc = .missing ∨ fc = .malformed →
        initializeDataStore fc = .ok (encodeStore emptyStore)) := by
  cases fc with
  | missing =>
    refine ⟨⟨_, rfl⟩, ?_, fun _ => rfl⟩
    intro j h; cases h
  | malformed =>
    refine ⟨⟨_, rfl⟩, ?_, fun _ => rfl⟩
    intro j h; cases h
  | parsed j =>
    refine ⟨⟨j, rfl⟩, ?_, ?_⟩
    · intro j' h; cases h; rfl
    · rintro (h | h) <;> cases h

theorem initializeDataStore_total_witness :
    initializeDataStore .malformed = .ok (encodeStore emptyStore) :=
  (initializeDataStore_total .malformed).2.2 (Or.inr rfl)

/-- C2: re-registering an existing userId replaces that user's entry in
place (same position, same length), carrying forward the stored entry's
`registeredAt`, setting `lastSeen` to the current time, and replacing
`metadata` wholesale with the input's metadata (empty when absent). -/
theorem registerUser_upsert_existing (now : Int) (freshId : String)
    (data : UserInput) (st : Store) (s : String)
    (hid : data.userId = some s) (hmem : ∃ u ∈ st.users, u.userId = s) :
    (registerUser now freshId data st).2.users =
      st.users.set
        (st.users.findIdx (fun u => userIdMatches data.userId u.userId))
        (registerUser now freshId data st).1 ∧
      (registerUser now freshId data st).2.users.length = st.users.length ∧
      (registerUser now freshId data st).1.registeredAt =
        (st.users.getD
          (st.users.findIdx (fun u => userIdMatches data.userId u.userId))
          defaultUser).registeredAt ∧
      (registerUser now freshId data st).1.lastSeen = now ∧
      (∀ m, data.metadata = some m →
        (registerUser now freshId data st).1.metadata = m) ∧
      (data.metadata = none → (registerUser now freshId data st).1.metadata = []) := by
  have hex : ∃ u, u ∈ st.users ∧ userIdMatches data.userId u.userId = true := by
    obtain ⟨u, hu, he⟩ := hmem
    exact ⟨u, hu, by simp [userIdMatches, hid, he]⟩
  have hfind := List.findIdx?_eq_some_of_exists hex
  refine ⟨?_, ?_, ?_, ?_, ?_, ?_⟩
  · simp only [registerUser, hfind]
  · simp only [registerUser, hfind, List.length_set]
  · simp only [registerUser, hfind]
  · simp only [registerUser, hfind]
  · intro m hm
    simp only [registerUser, hfind, objOr, hm]
  · intro hm
    simp only [registerUser, hfind, objOr, hm]

theorem registerUser_upsert_existing_witness :
    demoRegInput.userId = some "u1" ∧
      (∃ u ∈ demoStoreUsers.users, u.userId = "u1") ∧
      (registerUser 9 "fresh" demoRegInput demoStoreUsers).1.registeredAt = 7 ∧
      (registerUser 9 "fresh" demoRegInput demoStoreUsers).1.lastSeen = 9 ∧
      (registerUser 9 "fresh" demoRegInput demoStoreUsers).1.metadata =
        [("plan", Json.str "pro")] ∧
      (registerUser 9 "fresh" demoRegInput demoStoreUsers).2.users.length = 1 := by
  have h := registerUser_upsert_existing 9 "fresh" demoRegInput demoStoreUsers "u1"
    rfl ⟨demoUser, by simp [demoStoreUsers], rfl⟩
  exact ⟨rfl, ⟨demoUser, by simp [demoStoreUsers], rfl⟩,
    h.2.2.1.trans rfl, h.2.2.2.1, h.2.2.2.2.1 _ rfl, h.2.1.trans rfl⟩

/-! ### Lemmas about the unique-user tally -/

theorem foldl_addKey_userId_nodup (l : List PageView) (ks : List String)
    (h : ks.Nodup) : (l.foldl (fun ks pv => addKey ks pv.userId) ks).Nodup := by
  induction l generalizing ks with
  | nil => exact h
  | cons pv l ih =>
    simp only [List.foldl_cons]
    apply ih
    unfold addKey
    split
    · exact h
    · rename_i hk
      simp [List.nodup_append, h, hk]

theorem foldl_addKey_userId_toFinset (l : List PageView) (ks : List String) :
    (l.foldl (fun ks pv => addKey ks pv.userId) ks).toFinset =
      ks.toFinset ∪ (l.map (fun pv => pv.userId)).toFinset := by
  induction l generalizing ks with
  | nil => simp
  | cons pv l ih =>
    simp only [List.foldl_cons, ih, List.map_cons, List.toFinset_cons]
    unfold addKey
    split
    · rename_i hk
      ext x
      simp only [Finset.mem_union, List.mem_toFinset, Finset.mem_insert]
      constructor
      · rintro (hx | hx)
        · exact Or.inl hx
        · exact Or.inr (Or.inr hx)
      · rintro (hx | rfl | hx)
        · exact Or.inl hx
        · exact Or.inl hk
        · exact Or.inr hx
    · rename_i hk
      ext x
      simp only [Finset.mem_union, List.mem_toFinset, Finset.mem_insert,
        List.mem_append, List.mem_singleton]
      tauto

/-- C1: the unique-user statistic counts the distinct userIds among the page
views in the window (events contribute nothing), while `totalUsers` is the
unfiltered length of the users sequence. -/
theorem getStatistics_uniqueUsers_distinct (now timeRange : Int) (st : Store) :
    (getStatistics now timeRange st).uniqueUsers =
      ((filteredPageViews now timeRange st).map (fun pv => pv.userId)).toFinset.card ∧
      (getStatistics now timeRange st).totalUsers = st.users.length := by
  refine ⟨?_, rfl⟩
  show ((filteredPageViews now timeRange st).foldl
      (fun ks pv => addKey ks pv.userId) []).length = _
  rw [← List.toFinset_card_of_nodup
    (foldl_addKey_userId_nodup (filteredPageViews now timeRange st) [] (by simp))]
  rw [foldl_addKey_userId_toFinset]
  simp

/-- C4: for a positive window `h`, `getStatistics` counts exactly the page
views and events with `timestamp ≥ now - h` hours (inclusive lower bound, no
upper bound); when every stored record lies in the window, the counts are the
full sequence lengths. -/
theorem getStatistics_window_counts (now h : Int) (st : Store) (hpos : 0 < h) :
    (getStatistics now h st).totalPageViews =
      (st.pageViews.filter (fun pv => now - h * 3600000 ≤ pv.timestamp)).length ∧
      (getStatistics now h st).totalEvents =
        (st.events.filter (fun ev => now - h * 3600000 ≤ ev.timestamp)).length ∧
      ((∀ pv ∈ st.pageViews, now - h * 3600000 ≤ pv.timestamp) →
        (getStatistics now h st).totalPageViews = st.pageViews.length) ∧
      ((∀ ev ∈ st.events, now - h * 3600000 ≤ ev.timestamp) →
        (getStatistics now h st).totalEvents = st.events.length) := by
  have hw : statsStartTime now h = now - h * 3600000 := by
    have : h ≠ 0 := by omega
    simp [statsStartTime, effWindow, this]
  have hpv : (getStatistics now h st).totalPageViews =
      (st.pageViews.filter (fun pv => now - h * 3600000 ≤ pv.timestamp)).length := by
    show (filteredPageViews now h st).length = _
    rw [filteredPageViews, hw]
  have hev : (getStatistics now h st).totalEvents =
      (st.events.filter (fun ev => now - h * 3600000 ≤ ev.timestamp)).length := by
    show (filteredEvents now h st).length = _
    rw [filteredEvents, hw]
  refine ⟨hpv, hev, ?_, ?_⟩
  · intro hall
    rw [hpv, List.filter_eq_self.mpr (fun pv hm => by simpa using hall pv hm)]
  · intro hall
    rw [hev, List.filter_eq_self.mpr (fun ev hm => by simpa using hall ev hm)]

theorem getStatistics_window_counts_witness :
    (0 : Int) < 1 ∧
      (getStatistics 0 1 c3Store).totalPageViews =
        (c3Store.pageViews.filter
          (fun pv => (0 : Int) - 1 * 3600000 ≤ pv.timestamp)).length ∧
      ((∀ pv ∈ c3Store.pageViews, (0 : Int) - 1 * 3600000 ≤ pv.timestamp) →
        (getStatistics 0 1 c3Store).totalPageViews = c3Store.pageViews.length) :=
  ⟨by decide,
    (getStatistics_window_counts 0 1 c3Store (by decide)).1,
    (getStatistics_window_counts 0 1 c3Store (by decide)).2.2.1⟩

/-- C3 counterexample: with `now = 0` and a windowHours of `0`, the computed
`startTime` is strictly before `now` (the `timeRange || 24` fallback treats
`0` as falsy), and the filtered set contains a record whose timestamp is
strictly before `now` — contradicting the claim that a zero window yields a
`startTime` at or after `now` and filtered sets of records with
`timestamp ≥ now`. -/
theorem getStatistics_zero_window_counterexample :
    statsStartTime 0 0 < 0 ∧
      (getStatistics 0 0 c3Store).totalPageViews = 1 ∧
      ∃ pv ∈ c3Store.pageViews,
        statsStartTime 0 0 ≤ pv.timestamp ∧ pv.timestamp < 0 := by
  decide

/-- C3 as amended: a windowHours of `0` falls back to the 24-hour default
(so `startTime = now - 24h`, before `now`), a strictly negative windowHours
yields a `startTime` at or after `now` and hence filtered sets containing
only records with `timestamp ≥ now`, no error is raised (the functions are
total), and a non-numeric or absent `hours` parameter falls back to 24. -/
theorem getStatistics_nonpositive_window (now timeRange : Int) (st : Store)
    (hneg : timeRange < 0) :
    statsStartTime now 0 = now - 24 * 3600000 ∧
      parseHours none = 24 ∧
      parseHours (some 0) = 24 ∧
      now ≤ statsStartTime now timeRange ∧
      (∀ pv ∈ filteredPageViews now timeRange st, now ≤ pv.timestamp) ∧
      (∀ ev ∈ filteredEvents now timeRange st, now ≤ ev.timestamp) := by
  have hne : timeRange ≠ 0 := by omega
  have hstart : now ≤ statsStartTime now timeRange := by
    simp only [statsStartTime, effWindow, hne, if_false]
    omega
  refine ⟨by simp [statsStartTime, effWindow], rfl, rfl, hstart, ?_, ?_⟩
  · intro pv hm
    have := (List.mem_filter.mp hm).2
    have hts : statsStartTime now timeRange ≤ pv.timestamp := by simpa using this
    omega
  · intro ev hm
    have := (List.mem_filter.mp hm).2
    have hts : statsStartTime now timeRange ≤ ev.timestamp := by simpa using this
    omega

theorem getStatistics_nonpositive_window_witness :
    (-1 : Int) < 0 ∧
      statsStartTime 0 0 = 0 - 24 * 3600000 ∧
      parseHours none = 24 ∧
      (0 : Int) ≤ statsStartTime 0 (-1) ∧
      (∀ pv ∈ filteredPageViews 0 (-1) c3Store, (0 : Int) ≤ pv.timestamp) :=
  ⟨by decide,
    (getStatistics_nonpositive_window 0 (-1) c3Store (by decide)).1,
    (getStatistics_nonpositive_window 0 (-1) c3Store (by decide)).2.1,
    (getStatistics_nonpositive_window 0 (-1) c3Store (by decide)).2.2.2.1,
    (getStatistics_nonpositive_window 0 (-1) c3Store (by decide)).2.2.2.2.1⟩

/-! ### Lemmas about the stable timestamp sort -/

theorem insertByTs_perm {α : Type} (ts : α → Int) (a : α) (l : List α) :
    (insertByTs ts a l).Perm (a :: l) := by
  induction l with
  | nil => exact List.Perm.refl _
  | cons x xs ih =>
    unfold insertByTs
    split
    · exact (List.Perm.cons x ih).trans (List.Perm.swap a x xs)
    · exact List.Perm.refl _

theorem insertByTs_sorted {α : Type} (ts : α → Int) (a : α) (l : List α)
    (h : l.Pairwise (fun x y => ts x ≤ ts y)) :
    (insertByTs ts a l).Pairwise (fun x y => ts x ≤ ts y) := by
  induction l with
  | nil => simp [insertByTs]
  | cons x xs ih =>
    rw [List.pairwise_cons] at h
    unfold insertByTs
    split
    · rename_i hlt
      rw [List.pairwise_cons]
      refine ⟨?_, ih h.2⟩
      intro y hy
      rcases List.mem_cons.mp ((insertByTs_perm ts a xs).mem_iff.mp hy) with rfl | hy
      · exact le_of_lt hlt
      · exact h.1 y hy
    · rename_i hge
      rw [List.pairwise_cons]
      refine ⟨?_, List.pairwise_cons.mpr h⟩
      intro y hy
      rcases List.mem_cons.mp hy with rfl | hy
      · exact le_of_not_lt hge
      · exact le_trans (le_of_not_lt hge) (h.1 y hy)

theorem insertByTs_filter_timestamp {α : Type} (ts : α → Int) (a : α)
    (l : List α) (t : Int) :
    (insertByTs ts a l).filter (fun x => ts x == t) =
      (a :: l).filter (fun x => ts x == t) := by
  induction l with
  | nil => rfl
  | cons x xs ih =>
    unfold insertByTs
    split
    · rename_i hlt
      by_cases ha : ts a = t <;> by_cases hx : ts x = t
      · rw [ha, hx] at hlt
        exact absurd hlt (lt_irrefl t)
      · simp [List.filter_cons, ha, hx, ih]
      · simp [List.filter_cons, ha, hx, ih]
      · simp [List.filter_cons, ha, hx, ih]
    · rfl

theorem sortByTs_perm {α : Type} (ts : α → Int) (l : List α) :
    (sortByTs ts l).Perm l := by
  induction l with
  | nil => exact List.Perm.refl _
  | cons x xs ih => exact (insertByTs_perm ts x (sortByTs ts xs)).trans (ih.cons x)

theorem sortByTs_sorted {α : Type} (ts : α → Int) (l : List α) :
    (sortByTs ts l).Pairwise (fun x y => ts x ≤ ts y) := by
  induction l with
  | nil => simp [sortByTs]
  | cons x xs ih => exact insertByTs_sorted ts x (sortByTs ts xs) ih

theorem sortByTs_filter_timestamp {α : Type} (ts : α → Int) (l : List α)
    (t : Int) :
    (sortByTs ts l).filter (fun x => ts x == t) =
      l.filter (fun x => ts x == t) := by
  induction l with
  | nil => rfl
  | cons x xs ih =>
    show (insertByTs ts x (sortByTs ts xs)).filter _ = _
    rw [insertByTs_filter_timestamp]
    by_cases hx : ts x = t <;> simp [List.filter_cons, hx, ih]

/-- C5: `getUserJourney(u)` returns exactly the page views and events with
userId `u` (as a permutation of the filtered sequences), each sorted
non-decreasing by timestamp and stable (records sharing a timestamp keep
their original insertion order), with `totalActions` the sum of the two
lengths. -/
theorem getUserJourney_sorted_stable (st : Store) (u : String) :
    (getUserJourney u st).pageViews.Perm
        (st.pageViews.filter (fun pv => pv.userId == u)) ∧
      (getUserJourney u st).pageViews.Pairwise
        (fun a b => a.timestamp ≤ b.timestamp) ∧
      (∀ t : Int,
        (getUserJourney u st).pageViews.filter (fun pv => pv.timestamp == t) =
          (st.pageViews.filter (fun pv => pv.userId == u)).filter
            (fun pv => pv.timestamp == t)) ∧
      (getUserJourney u st).events.Perm
        (st.events.filter (fun ev => ev.userId == u)) ∧
      (getUserJourney u st).events.Pairwise
        (fun a b => a.timestamp ≤ b.timestamp) ∧
      (∀ t : Int,
        (getUserJourney u st).events.filter (fun ev => ev.timestamp == t) =
          (st.events.filter (fun ev => ev.userId == u)).filter
            (fun ev => ev.timestamp == t)) ∧
      (getUserJourney u st).totalActions =
        (st.pageViews.filter (fun pv => pv.userId == u)).length +
          (st.events.filter (fun ev => ev.userId == u)).length := by
  refine ⟨sortByTs_perm _ _, sortByTs_sorted _ _,
    fun t => sortByTs_filter_timestamp _ _ t,
    sortByTs_perm _ _, sortByTs_sorted _ _,
    fun t => sortByTs_filter_timestamp _ _ t, ?_⟩
  show (sortByTs _ _).length + (sortByTs _ _).length = _
  rw [(sortByTs_perm (fun pv : PageView => pv.timestamp) _).length_eq,
    (sortByTs_perm (fun ev : Event => ev.timestamp) _).length_eq]

/-! ### Lemmas for the persistence round-trip -/

theorem decodePageView_encodePageView (pv : PageView) :
    decodePageView (encodePageView pv) = some pv := rfl

theorem decodeEvent_encodeEvent (ev : Event) :
    decodeEvent (encodeEvent ev) = some ev := rfl

theorem decodeUser_encodeUser (u : User) :
    decodeUser (encodeUser u) = some u := rfl

theorem mapM_map_some {α β : Type} (f : α → Option β) (g : β → α)
    (l : List β) (h : ∀ x, f (g x) = some x) : (l.map g).mapM f = some l := by
  rw [← List.mapM'_eq_mapM]
  induction l with
  | nil => rfl
  | cons x xs ih => simp [List.mapM'_cons, h, ih]

/-- C6: saving the store and loading the saved snapshot is the identity on
store states: `initializeDataStore` accepts the saved snapshot as-is, and
reading its four sequences back yields exactly the original records in the
original order. -/
theorem save_load_roundtrip (st : Store) :
    initializeDataStore (.parsed (encodeStore st)) = .ok (encodeStore st) ∧
      decodeStore (encodeStore st) = some st := by
  refine ⟨rfl, ?_⟩
  have hpv : (st.pageViews.map encodePageView).mapM decodePageView =
      some st.pageViews :=
    mapM_map_some _ _ _ decodePageView_encodePageView
  have hev : (st.events.map encodeEvent).mapM decodeEvent = some st.events :=
    mapM_map_some _ _ _ decodeEvent_encodeEvent
  have hus : (st.users.map encodeUser).mapM decodeUser = some st.users :=
    mapM_map_some _ _ _ decodeUser_encodeUser
  have h1 : jLookup (encodeStore st) "pageViews" =
      some (Json.arr (st.pageViews.map encodePageView)) := rfl
  have h2 : jLookup (encodeStore st) "events" =
      some (Json.arr (st.events.map encodeEvent)) := rfl
  have h3 : jLookup (encodeStore st) "users" =
      some (Json.arr (st.users.map encodeUser)) := rfl
  have h4 : jLookup (encodeStore st) "sessions" =
      some (Json.arr st.sessions) := rfl
  have hpv' : List.mapM.loop decodePageView (st.pageViews.map encodePageView) [] =
      some st.pageViews := hpv
  have hev' : List.mapM.loop decodeEvent (st.events.map encodeEvent) [] =
      some st.events := hev
  have hus' : List.mapM.loop decodeUser (st.users.map encodeUser) [] =
      some st.users := hus
  simp [decodeStore, h1, h2, h3, h4, asArr, hpv', hev', hus']

/-! ### Lemmas for the id-uniqueness invariant -/

theorem registerUser_users_nodup (now : Int) (freshId : String)
    (data : UserInput) (st : Store)
    (hst : (st.users.map (fun u => u.userId)).Nodup)
    (hfresh : freshId ∉ st.users.map (fun u => u.userId)) :
    ((registerUser now freshId data st).2.users.map (fun u => u.userId)).Nodup := by
  cases hfind : st.users.findIdx? (fun u => userIdMatches data.userId u.userId) with
  | none =>
    simp only [registerUser, hfind]
    rw [List.map_append, List.nodup_append]
    refine ⟨hst, by simp, ?_⟩
    intro a ha hb
    simp only [List.map_cons, List.map_nil, List.mem_singleton] at hb
    subst hb
    cases hdu : data.userId with
    | none =>
      rw [hdu] at ha
      simp only [strOr] at ha
      exact hfresh ha
    | some s =>
      by_cases hs : s = ""
      · subst hs
        rw [hdu] at ha
        simp only [strOr, if_pos rfl] at ha
        exact hfresh ha
      · rw [hdu] at ha
        simp only [strOr, if_neg hs] at ha
        have hall := List.findIdx?_eq_none_iff.mp hfind
        obtain ⟨u, hu, hus⟩ := List.mem_map.mp ha
        have := hall u hu
        rw [hdu] at this
        simp only [userIdMatches, beq_eq_false_iff_ne, ne_eq] at this
        exact this hus
  | some i =>
    simp only [registerUser, hfind]
    obtain ⟨hlt, hp, hmin⟩ := List.findIdx?_eq_some_iff_getElem.mp hfind
    rw [List.map_set]
    cases hdu : data.userId with
    | none =>
      rw [hdu] at hp
      simp [userIdMatches] at hp
    | some s =>
      rw [hdu] at hp
      simp only [userIdMatches, beq_iff_eq] at hp
      by_cases hs : s = ""
      · subst hs
        simp only [hdu, strOr, if_pos rfl]
        exact hst.set hfresh
      · have hstr : strOr (some s) freshId = s := by simp [strOr, hs]
        simp only [hstr]
        have hlen : i < (st.users.map (fun u => u.userId)).length := by
          simpa using hlt
        have hgi : (st.users.map (fun u => u.userId))[i] = s := by
          simp [hp]
        rw [← hgi, set_getElem_self]
        exact hst

theorem applyOp_preserves_idsUnique (st : Store) (op : Op)
    (hinv : IdsUnique st) (hfresh : ∀ f ∈ opFreshIds op, f ∉ storeIds st) :
    IdsUnique (applyOp st op) := by
  obtain ⟨hpv, hev, hus⟩ := hinv
  cases op with
  | pv now freshId freshSid data =>
    have hf : freshId ∉ st.pageViews.map (fun pv => pv.id) := by
      have h := hfresh freshId (by simp [opFreshIds])
      simp only [storeIds, List.mem_append, not_or] at h
      exact h.1.1
    refine ⟨?_, hev, hus⟩
    simp only [applyOp, trackPageView, List.map_append, List.nodup_append]
    refine ⟨hpv, by simp, ?_⟩
    intro a ha hb
    simp only [List.map_cons, List.map_nil, List.mem_singleton] at hb
    subst hb
    exact hf ha
  | ev now freshId freshSid data =>
    have hf : freshId ∉ st.events.map (fun ev => ev.id) := by
      have h := hfresh freshId (by simp [opFreshIds])
      simp only [storeIds, List.mem_append, not_or] at h
      exact h.1.2
    refine ⟨hpv, ?_, hus⟩
    simp only [applyOp, trackEvent, List.map_append, List.nodup_append]
    refine ⟨hev, by simp, ?_⟩
    intro a ha hb
    simp only [List.map_cons, List.map_nil, List.mem_singleton] at hb
    subst hb
    exact hf ha
  | reg now freshId data =>
    have hf : freshId ∉ st.users.map (fun u => u.userId) := by
      have h := hfresh freshId (by simp [opFreshIds])
      simp only [storeIds, List.mem_append, not_or] at h
      exact h.2
    have hkeep : (registerUser now freshId data st).2.pageViews = st.pageViews ∧
        (registerUser now freshId data st).2.events = st.events := by
      cases hfind : st.users.findIdx? (fun u => userIdMatches data.userId u.userId) <;>
        simp [registerUser, hfind]
    refine ⟨?_, ?_, registerUser_users_nodup now freshId data st hus hf⟩
    · have hp : (applyOp st (Op.reg now freshId data)).pageViews = st.pageViews := hkeep.1
      rw [hp]
      exact hpv
    · have he : (applyOp st (Op.reg now freshId data)).events = st.events := hkeep.2
      rw [he]
      exact hev

theorem storeIds_applyOp (st : Store) (op : Op) (s : String)
    (hs : s ∈ storeIds (applyOp st op)) :
    s ∈ storeIds st ∨ s ∈ opFreshIds op ∨ s ∈ opGivenUserIds op := by
  cases op with
  | pv now freshId freshSid data =>
    simp only [applyOp, trackPageView, storeIds, List.map_append,
      List.mem_append, List.map_cons, List.map_nil, List.mem_singleton,
      opFreshIds, opGivenUserIds, List.mem_cons, List.not_mem_nil] at hs ⊢
    tauto
  | ev now freshId freshSid data =>
    simp only [applyOp, trackEvent, storeIds, List.map_append,
      List.mem_append, List.map_cons, List.map_nil, List.mem_singleton,
      opFreshIds, opGivenUserIds, List.mem_cons, List.not_mem_nil] at hs ⊢
    tauto
  | reg now freshId data =>
    cases hfind : st.users.findIdx? (fun u => userIdMatches data.userId u.userId) with
    | none =>
      simp only [applyOp, registerUser, hfind, storeIds, List.map_append,
        List.mem_append, List.map_cons, List.map_nil, List.mem_singleton] at hs
      rcases hs with (h | h) | (h | h)
      · exact Or.inl (by simp only [storeIds, List.mem_append]; tauto)
      · exact Or.inl (by simp only [storeIds, List.mem_append]; tauto)
      · exact Or.inl (by simp only [storeIds, List.mem_append]; tauto)
      · -- the appended user's userId
        subst h
        cases hdu : data.userId with
        | none => exact Or.inr (Or.inl (by simp [opFreshIds, strOr, hdu]))
        | some s' =>
          by_cases hs' : s' = ""
          · subst hs'
            exact Or.inr (Or.inl (by simp [opFreshIds, strOr, hdu]))
          · refine Or.inr (Or.inr ?_)
            simp [opGivenUserIds, hdu, hs', strOr]
    | some i =>
      simp only [applyOp, registerUser, hfind, storeIds, List.map_append,
        List.mem_append] at hs
      rcases hs with (h | h) | h
      · exact Or.inl (by simp only [storeIds, List.mem_append]; tauto)
      · exact Or.inl (by simp only [storeIds, List.mem_append]; tauto)
      · rw [List.map_set] at h
        rcases List.mem_or_eq_of_mem_set h with h | h
        · exact Or.inl (by simp only [storeIds, List.mem_append]; tauto)
        · cases hdu : data.userId with
          | none =>
            rw [hdu] at h
            exact Or.inr (Or.inl (by simp [opFreshIds, strOr, h]))
          | some s' =>
            rw [hdu] at h
            by_cases hs' : s' = ""
            · subst hs'
              exact Or.inr (Or.inl (by simp [opFreshIds, strOr, h]))
            · refine Or.inr (Or.inr ?_)
              simp only [strOr, if_neg hs'] at h
              simp [opGivenUserIds, hdu, hs', h]

/-- C9: in every state reachable by the ingest operations from a state
satisfying the id-uniqueness invariant, page-view ids, event ids and user
userIds remain pairwise distinct within their sequences — provided the
`generateId()` draws are fresh (pairwise distinct and avoiding existing ids
and caller-chosen userIds), the success event the generator delivers with
overwhelming probability; in particular the page view appended by each
`trackPageView` call carries an id different from every previously tracked
page view's id. -/
theorem ingest_preserves_idsUnique (st : Store) (ops : List Op)
    (hinv : IdsUnique st) (hfresh : FreshDraws st ops) :
    IdsUnique (runOps st ops) := by
  induction ops generalizing st with
  | nil => exact hinv
  | cons op rest ih =>
    obtain ⟨hnd, hmem⟩ := hfresh
    rw [List.flatMap_cons] at hnd
    have hndparts := List.nodup_append.mp hnd
    have hop : ∀ f ∈ opFreshIds op, f ∉ storeIds st := fun f hf =>
      (hmem f (by rw [List.flatMap_cons]; exact List.mem_append_left _ hf)).1
    show IdsUnique (runOps (applyOp st op) rest)
    apply ih
    · exact applyOp_preserves_idsUnique st op hinv hop
    · refine ⟨hndparts.2.1, ?_⟩
      intro s hs
      have hs' := hmem s (by rw [List.flatMap_cons]; exact List.mem_append_right _ hs)
      have hsop : s ∉ opFreshIds op := fun hmem' => hndparts.2.2 hmem' hs
      refine ⟨?_, ?_⟩
      · intro hcon
        rcases storeIds_applyOp st op s hcon with h | h | h
        · exact hs'.1 h
        · exact hsop h
        · exact hs'.2 (by rw [List.flatMap_cons]; exact List.mem_append_left _ h)
      · intro hcon
        exact hs'.2 (by rw [List.flatMap_cons]; exact List.mem_append_right _ hcon)

theorem ingest_preserves_idsUnique_witness :
    IdsUnique emptyStore ∧ FreshDraws emptyStore demoOps ∧
      IdsUnique (runOps emptyStore demoOps) :=
  ⟨by decide, by decide,
    ingest_preserves_idsUnique emptyStore demoOps (by decide) (by decide)⟩
